import Mathlib

/-!
# Verification of the CSS selector builder of `src/05-objects-tasks.js`

Shallow embedding of the module's selector-builder state machine and of its
JSON round-trip helpers, with theorems settling the specification claims.

The JavaScript source keeps all methods on one shared prototype object
`cssSelectorBuilder`, whose own properties `line` (the accumulated text) and
`order` (the kinds added so far) are mutated in place; every fragment method
copies the mutated state onto a freshly created object and then resets the
receiver.  We model this with an explicit heap of builder objects addressed
by natural-number references: the shared base object lives at reference 0,
`Object.create` + `addProperty` is an allocation, and property writes are
heap updates.  Thrown `Error(msg)` values are modelled as `Except.error msg`.
-/

set_option maxHeartbeats 1000000

deriving instance DecidableEq for Except

namespace ObjectsTasks

/-- The six selector fragment kinds, named as the source's string tags
`'element'`, `'id'`, `'class'`, `'attr'`, `'pseudoClass'`, `'pseudoElement'`
(`cls` stands for the source's `class` tag, a Lean keyword). -/
inductive Kind where
  | element
  | id
  | cls
  | attr
  | pseudoClass
  | pseudoElement
deriving DecidableEq, Repr

/-- One builder object: its own `line` and `order` properties.  Every object
ever observed has both as own properties (the base initialises them, and
`addProperty` defines both on each created object), so no prototype lookup of
data fields is needed. -/
structure BObj where
  line : String
  order : List Kind
deriving DecidableEq, Repr

/-- A reference to a builder object on the heap. -/
abbrev Ref := Nat

/-- The heap of builder objects; a reference is an index into the list. -/
structure Heap where
  objs : List BObj
deriving DecidableEq, Repr

/-- The empty builder state: `line: ''`, `order: []`. -/
def emptyObj : BObj := { line := "", order := [] }

def Heap.get (h : Heap) (r : Nat) : BObj := h.objs.getD r emptyObj

def Heap.set (h : Heap) (r : Nat) (o : BObj) : Heap := ⟨h.objs.set r o⟩

/-- `Object.create` followed by the two `addProperty` calls: a fresh object
carrying the given `line` and `order` values. -/
def Heap.alloc (h : Heap) (o : BObj) : Heap × Nat := (⟨h.objs ++ [o]⟩, h.objs.length)

/-- The initial heap: only the shared base `cssSelectorBuilder` object, at
reference 0, with `line: ''` and `order: []`. -/
def initHeap : Heap := ⟨[emptyObj]⟩

/-- The shared base builder. -/
def baseRef : Nat := 0

namespace cssSelectorBuilder

/-- The duplicate-fragment error message, spelled exactly as the source does
(including the source's `"more then"`). -/
def dupMsg : String :=
  "Element, id and pseudo-element should not occur more then one time inside the selector"

/-- The order-violation error message of the source. -/
def orderMsg : String :=
  "Selector parts should be arranged in the following order: element, id, class, attribute, pseudo-class, pseudo-element"

/-- The first `switch` of `validate`: the duplicate check for the three
singular kinds. -/
def dupCheck (addition : Kind) (order : List Kind) : Except String Unit :=
  match addition with
  | Kind.element =>
      if order.contains Kind.element then Except.error dupMsg else Except.ok ()
  | Kind.id =>
      if order.contains Kind.id then Except.error dupMsg else Except.ok ()
  | Kind.pseudoElement =>
      if order.contains Kind.pseudoElement then Except.error dupMsg else Except.ok ()
  | _ => Except.ok ()

/-- The second `switch` of `validate`: the order check.  The `attr` case
mirrors the source's operator grouping
`includes('pseudoElement') || includes('pseudoClass' || includes('attr'))`:
the inner `||` evaluates to the truthy string `'pseudoClass'`, so the whole
condition is `includes('pseudoElement') || includes('pseudoClass')`. -/
def orderCheck (addition : Kind) (order : List Kind) : Except String Unit :=
  match addition with
  | Kind.element =>
      if order.contains Kind.pseudoElement || order.contains Kind.cls
          || order.contains Kind.pseudoClass || order.contains Kind.attr
          || order.contains Kind.id
        then Except.error orderMsg else Except.ok ()
  | Kind.id =>
      if order.contains Kind.pseudoElement || order.contains Kind.cls
          || order.contains Kind.pseudoClass || order.contains Kind.attr
        then Except.error orderMsg else Except.ok ()
  | Kind.cls =>
      if order.contains Kind.pseudoElement || order.contains Kind.attr
          || order.contains Kind.pseudoClass
        then Except.error orderMsg else Except.ok ()
  | Kind.attr =>
      if order.contains Kind.pseudoElement || order.contains Kind.pseudoClass
        then Except.error orderMsg else Except.ok ()
  | Kind.pseudoClass =>
      if order.contains Kind.pseudoElement
        then Except.error orderMsg else Except.ok ()
  | Kind.pseudoElement => Except.ok ()

/-- `validate(addition)`: the two switches run in sequence against the
receiver's `order`; a throw in the first aborts before the second. -/
def validate (addition : Kind) (order : List Kind) : Except String Unit :=
  match dupCheck addition order with
  | Except.error e => Except.error e
  | Except.ok _ => orderCheck addition order

/-- The shared body of the six fragment methods, with `text` the
already-prefixed addition each method writes into `this.line`:
validate, mutate the receiver, copy its state to a fresh object
(`Object.create` + `addProperty`), reset the receiver, return the object. -/
def addFragment (h : Heap) (r : Nat) (k : Kind) (text : String) :
    Except String (Heap × Nat) :=
  match validate k (h.get r).order with
  | Except.error e => Except.error e
  | Except.ok _ =>
      -- this.line += text; this.order.push(k)
      let h1 := h.set r { line := (h.get r).line ++ text, order := (h.get r).order ++ [k] }
      -- const obj = Object.create(cssSelectorBuilder);
      -- this.addProperty(obj, 'line'); this.addProperty(obj, 'order')
      let (h2, obj) := h1.alloc (h1.get r)
      -- this.order = []; this.line = ''  (the receiver keeps fresh empty values;
      -- obj keeps the array pushed above, whose reference it alone now holds)
      let h3 := h2.set r emptyObj
      Except.ok (h3, obj)

/-- `element(el)`. -/
def element (h : Heap) (r : Nat) (el : String) : Except String (Heap × Nat) :=
  addFragment h r Kind.element el

/-- `id(val)`: writes `'#' + val`. -/
def id (h : Heap) (r : Nat) (val : String) : Except String (Heap × Nat) :=
  addFragment h r Kind.id ("#" ++ val)

/-- `class(cl)`: writes `'.' + cl`. -/
def cls (h : Heap) (r : Nat) (cl : String) : Except String (Heap × Nat) :=
  addFragment h r Kind.cls ("." ++ cl)

/-- `attr(a)`: writes `'[' + a + ']'`. -/
def attr (h : Heap) (r : Nat) (a : String) : Except String (Heap × Nat) :=
  addFragment h r Kind.attr ("[" ++ a ++ "]")

/-- `pseudoClass(ps)`: writes `':' + ps`. -/
def pseudoClass (h : Heap) (r : Nat) (ps : String) : Except String (Heap × Nat) :=
  addFragment h r Kind.pseudoClass (":" ++ ps)

/-- `pseudoElement(pse)`: writes `'::' + pse`. -/
def pseudoElement (h : Heap) (r : Nat) (pse : String) : Except String (Heap × Nat) :=
  addFragment h r Kind.pseudoElement ("::" ++ pse)

/-- The rendered form of one fragment: value for element, `#`+value for id,
`.`+value for class, `[`+value+`]` for attribute, `:`+value for pseudo-class,
`::`+value for pseudo-element. -/
def fragText : Kind → String → String
  | Kind.element, v => v
  | Kind.id, v => "#" ++ v
  | Kind.cls, v => "." ++ v
  | Kind.attr, v => "[" ++ v ++ "]"
  | Kind.pseudoClass, v => ":" ++ v
  | Kind.pseudoElement, v => "::" ++ v

/-- Kind-indexed dispatcher over the six fragment methods. -/
def add (h : Heap) (r : Nat) (k : Kind) (v : String) : Except String (Heap × Nat) :=
  match k with
  | Kind.element => element h r v
  | Kind.id => id h r v
  | Kind.cls => cls h r v
  | Kind.attr => attr h r v
  | Kind.pseudoClass => pseudoClass h r v
  | Kind.pseudoElement => pseudoElement h r v

/-- `stringify()`: `const temp = this.line; this.line = ''; this.order = [];
return temp;`. -/
def stringify (h : Heap) (r : Nat) : Heap × String :=
  (h.set r emptyObj, (h.get r).line)

/-- `toString()`: the same body as `stringify`. -/
def toString (h : Heap) (r : Nat) : Heap × String :=
  (h.set r emptyObj, (h.get r).line)

/-- One argument of the variadic `combine(...args)`: a builder object or a
combinator token string. -/
inductive Arg where
  | obj (r : Nat)
  | str (s : String)
deriving DecidableEq, Repr

/-- JS string coercion of an argument in `temp += args[i]`: a string is taken
as is; an object's `valueOf` is not primitive, so its `toString` method runs
-- returning its `line` and clearing the object. -/
def coerceString (h : Heap) (a : Arg) : Heap × String :=
  match a with
  | Arg.str s => (h, s)
  | Arg.obj r => toString h r

/-- The loop of `combine`:
`temp += args[i]; if (i < args.length - 1) temp += ' ';`. -/
def combineLoop (h : Heap) (args : List Arg) : Heap × String :=
  match args with
  | [] => (h, "")
  | [a] => coerceString h a
  | a :: rest =>
      let p1 := coerceString h a
      let p2 := combineLoop p1.1 rest
      (p2.1, p1.2 ++ " " ++ p2.2)

/-- `combine(...args)` invoked on receiver `r`: build `temp` from the
arguments, then `this.line = temp; return this;` (the receiver's `order` is
left as it currently stands). -/
def combine (h : Heap) (r : Nat) (args : List Arg) : Heap × Nat :=
  let p := combineLoop h args
  (p.1.set r { line := p.2, order := (p.1.get r).order }, r)

/-- Fluent chaining of fragment additions: each call is invoked on the object
returned by the previous one. -/
def chainAdds (h : Heap) (r : Nat) (ps : List (Kind × String)) :
    Except String (Heap × Nat) :=
  match ps with
  | [] => Except.ok (h, r)
  | (k, v) :: rest =>
      match add h r k v with
      | Except.error e => Except.error e
      | Except.ok p => chainAdds p.1 p.2 rest

/-- Canonical rank of a fragment kind (spec §3:
element < id < class < attribute < pseudo-class < pseudo-element). -/
def rank : Kind → Nat
  | Kind.element => 0
  | Kind.id => 1
  | Kind.cls => 2
  | Kind.attr => 3
  | Kind.pseudoClass => 4
  | Kind.pseudoElement => 5

/-- The maximum canonical rank present in a kind history (0 when empty). -/
def maxRank (used : List Kind) : Nat := used.foldr (fun u m => max (rank u) m) 0

/-- The three singular kinds of the spec: element, id, pseudo-element. -/
def singularKind : Kind → Bool
  | Kind.element => true
  | Kind.id => true
  | Kind.pseudoElement => true
  | _ => false

/-- Two-rule reference validator following the spec's words (§4.2): the
duplicate check for singular kinds first, then the maximum-rank order check,
otherwise success. -/
def validateSpec (k : Kind) (used : List Kind) : Except String Unit :=
  if singularKind k && used.contains k then Except.error dupMsg
  else if rank k < maxRank used then Except.error orderMsg
  else Except.ok ()

/-- Spec-side join: the arguments joined in call order with exactly one space
between every adjacent pair. -/
def joinSpace : List String → String
  | [] => ""
  | [s] => s
  | s :: rest => s ++ " " ++ joinSpace rest

/-- The text an argument contributes, read against a given heap: an object's
accumulated `line`, a token string itself. -/
def argText (h : Heap) (a : Arg) : String :=
  match a with
  | Arg.obj r => (h.get r).line
  | Arg.str s => s

/-- The object references among a `combine` argument list. -/
def objRefs : List Arg → List Nat
  | [] => []
  | Arg.obj r :: rest => r :: objRefs rest
  | Arg.str _ :: rest => objRefs rest

/-- The concatenation, in call order, of each fragment's rendered form. -/
def concatFrags : List (Kind × String) → String
  | [] => ""
  | q :: rest => fragText q.1 q.2 ++ concatFrags rest

/-- The scenario `combine(combine(a, t1, b), '~', combine(c, t2, d))` of the
facade usage: four fragment-built states are created from the base builder,
then the three `combine` calls all run on the shared base builder, arguments
evaluated left to right as JavaScript does, and the result is rendered. -/
def nestedCombineRun (va t1 vb vc t2 vd : String) : Except String String :=
  match element initHeap baseRef va with
  | Except.error e => Except.error e
  | Except.ok (h, ra) =>
    match element h baseRef vb with
    | Except.error e => Except.error e
    | Except.ok (h, rb) =>
      match element h baseRef vc with
      | Except.error e => Except.error e
      | Except.ok (h, rc) =>
        match element h baseRef vd with
        | Except.error e => Except.error e
        | Except.ok (h, rd) =>
          let p1 := combine h baseRef [Arg.obj ra, Arg.str t1, Arg.obj rb]
          let p2 := combine p1.1 baseRef [Arg.obj rc, Arg.str t2, Arg.obj rd]
          let p3 := combine p2.1 baseRef [Arg.obj p1.2, Arg.str "~", Arg.obj p2.2]
          Except.ok (stringify p3.1 p3.2).2

end cssSelectorBuilder

/-- A JSON primitive value (the opaque leaf data of a plain object). -/
inductive JsonPrim where
  | str (s : String)
  | num (n : Int)
  | bool (b : Bool)
  | null
deriving DecidableEq, Repr

/-- A JSON-representable plain object: its own enumerable keys with values,
in insertion order. -/
abbrev PlainObj := List (String × JsonPrim)

/-- Modelled from the spec: `JSON.stringify` (the body of the source's
`getJSON`) is a standard-library serializer used as a black box, assumed by
the spec to round-trip on JSON-representable plain objects; the serialized
text is therefore modelled as the parsed key-value mapping itself. -/
def getJSON (obj : PlainObj) : PlainObj := obj

/-- JS property assignment `ans[keys[i]] = input[keys[i]]`: overwrite the
value when the key already exists, otherwise append the key. -/
def setField (fields : PlainObj) (k : String) (v : JsonPrim) : PlainObj :=
  if fields.any (fun p => p.1 == k) then
    fields.map (fun p => if p.1 == k then (k, v) else p)
  else fields ++ [(k, v)]

/-- An object produced by `fromJSON`: its prototype (capability set) plus its
own enumerable fields. -/
structure ProtoObj (π : Type) where
  proto : π
  fields : PlainObj

/-- `fromJSON(proto, json)`: parse (`JSON.parse` is the spec's black-box
decoder, the inverse of `getJSON`, modelled as the identity on the parsed
mapping), create an object, set its prototype, then copy every key of the
input in order. -/
def fromJSON {π : Type} (proto : π) (json : PlainObj) : ProtoObj π :=
  { proto := proto
    fields := json.foldl (fun acc p => setField acc p.1 p.2) [] }

/-! ## Heap lemmas -/

theorem Heap.length_set (h : Heap) (r : Nat) (o : BObj) :
    (h.set r o).objs.length = h.objs.length := by
  simp [Heap.set]

theorem Heap.get_set_self (h : Heap) (r : Nat) (o : BObj) (hr : r < h.objs.length) :
    (h.set r o).get r = o := by
  simp [Heap.set, Heap.get, List.getD_eq_getElem?_getD, List.getElem?_set_self hr]

theorem Heap.get_set_ne (h : Heap) (r x : Nat) (o : BObj) (hx : x ≠ r) :
    (h.set r o).get x = h.get x := by
  simp [Heap.set, Heap.get, List.getD_eq_getElem?_getD,
    List.getElem?_set_ne (Ne.symm hx)]

theorem Heap.length_alloc (h : Heap) (o : BObj) :
    (h.alloc o).1.objs.length = h.objs.length + 1 := by
  simp [Heap.alloc]

theorem Heap.get_alloc_new (h : Heap) (o : BObj) :
    (h.alloc o).1.get h.objs.length = o := by
  simp [Heap.alloc, Heap.get, List.getD_eq_getElem?_getD,
    List.getElem?_append_right (Nat.le_refl _)]

theorem Heap.get_out (h : Heap) (x : Nat) (hx : h.objs.length ≤ x) :
    h.get x = emptyObj := by
  simp [Heap.get, List.getD_eq_getElem?_getD, List.getElem?_eq_none hx]

theorem Heap.get_alloc_ne (h : Heap) (o : BObj) (x : Nat) (hx : x ≠ h.objs.length) :
    (h.alloc o).1.get x = h.get x := by
  rcases Nat.lt_or_ge x h.objs.length with hlt | hge
  · simp [Heap.alloc, Heap.get, List.getD_eq_getElem?_getD,
      List.getElem?_append_left hlt]
  · have hgt : h.objs.length < x := Nat.lt_of_le_of_ne hge (Ne.symm hx)
    rw [Heap.get_out h x hge, Heap.get_out]
    simp [Heap.alloc]
    omega

/-! ## Validation lemmas -/

namespace cssSelectorBuilder

theorem contains_iff_mem (l : List Kind) (k : Kind) : l.contains k = true ↔ k ∈ l :=
  List.elem_iff

theorem lt_maxRank_iff (used : List Kind) (n : Nat) :
    n < maxRank used ↔ ∃ u ∈ used, n < rank u := by
  induction used with
  | nil => simp [maxRank]
  | cons a l ih =>
      simp only [maxRank, List.foldr_cons] at ih ⊢
      rw [lt_max_iff]
      simp [ih]

theorem exists_mem_kind (used : List Kind) (p : Kind → Prop) :
    (∃ u ∈ used, p u) ↔
      (Kind.element ∈ used ∧ p Kind.element) ∨ (Kind.id ∈ used ∧ p Kind.id) ∨
      (Kind.cls ∈ used ∧ p Kind.cls) ∨ (Kind.attr ∈ used ∧ p Kind.attr) ∨
      (Kind.pseudoClass ∈ used ∧ p Kind.pseudoClass) ∨
      (Kind.pseudoElement ∈ used ∧ p Kind.pseudoElement) := by
  constructor
  · rintro ⟨u, hu, hp⟩
    cases u <;> tauto
  · rintro (⟨hu, hp⟩ | ⟨hu, hp⟩ | ⟨hu, hp⟩ | ⟨hu, hp⟩ | ⟨hu, hp⟩ | ⟨hu, hp⟩) <;>
      exact ⟨_, hu, hp⟩

/-- The source's `validate` is extensionally the spec's two-rule validator,
for every kind and every history list. -/
theorem validate_eq_validateSpec (k : Kind) (used : List Kind) :
    validate k used = validateSpec k used := by
  have hiff : ∀ n, n < maxRank used ↔
      (Kind.element ∈ used ∧ n < rank Kind.element) ∨
      (Kind.id ∈ used ∧ n < rank Kind.id) ∨
      (Kind.cls ∈ used ∧ n < rank Kind.cls) ∨
      (Kind.attr ∈ used ∧ n < rank Kind.attr) ∨
      (Kind.pseudoClass ∈ used ∧ n < rank Kind.pseudoClass) ∨
      (Kind.pseudoElement ∈ used ∧ n < rank Kind.pseudoElement) := by
    intro n
    rw [lt_maxRank_iff]
    exact exists_mem_kind used _
  cases k
  case element =>
    by_cases hd : Kind.element ∈ used
    · simp [validate, dupCheck, validateSpec, singularKind, contains_iff_mem, hd]
    · have hc : ¬ (used.contains Kind.element = true) := by
        simp [contains_iff_mem, hd]
      simp only [validate, dupCheck, validateSpec, singularKind, Bool.true_and,
        if_neg hc]
      show orderCheck Kind.element used =
        if rank Kind.element < maxRank used then Except.error orderMsg else Except.ok ()
      unfold orderCheck
      apply if_congr _ rfl rfl
      rw [hiff]
      simp [rank, contains_iff_mem]
      try tauto
  case id =>
    by_cases hd : Kind.id ∈ used
    · simp [validate, dupCheck, validateSpec, singularKind, contains_iff_mem, hd]
    · have hc : ¬ (used.contains Kind.id = true) := by
        simp [contains_iff_mem, hd]
      simp only [validate, dupCheck, validateSpec, singularKind, Bool.true_and,
        if_neg hc]
      show orderCheck Kind.id used =
        if rank Kind.id < maxRank used then Except.error orderMsg else Except.ok ()
      unfold orderCheck
      apply if_congr _ rfl rfl
      rw [hiff]
      simp [rank, contains_iff_mem]
      try tauto
  case cls =>
    simp only [validate, dupCheck, validateSpec, singularKind, Bool.false_and,
      Bool.false_eq_true, if_false]
    show orderCheck Kind.cls used =
      if rank Kind.cls < maxRank used then Except.error orderMsg else Except.ok ()
    unfold orderCheck
    apply if_congr _ rfl rfl
    rw [hiff]
    simp [rank, contains_iff_mem]
    try tauto
  case attr =>
    simp only [validate, dupCheck, validateSpec, singularKind, Bool.false_and,
      Bool.false_eq_true, if_false]
    show orderCheck Kind.attr used =
      if rank Kind.attr < maxRank used then Except.error orderMsg else Except.ok ()
    unfold orderCheck
    apply if_congr _ rfl rfl
    rw [hiff]
    simp [rank, contains_iff_mem]
    try tauto
  case pseudoClass =>
    simp only [validate, dupCheck, validateSpec, singularKind, Bool.false_and,
      Bool.false_eq_true, if_false]
    show orderCheck Kind.pseudoClass used =
      if rank Kind.pseudoClass < maxRank used then Except.error orderMsg else Except.ok ()
    unfold orderCheck
    apply if_congr _ rfl rfl
    rw [hiff]
    simp [rank, contains_iff_mem]
    try tauto
  case pseudoElement =>
    by_cases hd : Kind.pseudoElement ∈ used
    · simp [validate, dupCheck, validateSpec, singularKind, contains_iff_mem, hd]
    · have hmax : ¬ rank Kind.pseudoElement < maxRank used := by
        rw [lt_maxRank_iff]
        rintro ⟨u, hu, hgt⟩
        cases u <;> simp [rank] at hgt
      simp [validate, dupCheck, orderCheck, validateSpec, singularKind,
        contains_iff_mem, hd, hmax]

/-- `validate` succeeds whenever every kind already in the history has
strictly smaller canonical rank than the kind being added. -/
theorem validate_ok_of_ranks_lt (k : Kind) (used : List Kind)
    (hlt : ∀ u ∈ used, rank u < rank k) : validate k used = Except.ok () := by
  rw [validate_eq_validateSpec]
  unfold validateSpec
  have h1 : k ∉ used := fun hmem => absurd (hlt k hmem) (lt_irrefl _)
  have h2 : ¬ rank k < maxRank used := by
    rw [lt_maxRank_iff]
    rintro ⟨u, hu, hgt⟩
    exact absurd (hlt u hu) (by omega)
  simp [contains_iff_mem, h1, h2]

/-- `validate` succeeds on an empty history, whatever the kind. -/
theorem validate_ok_nil (k : Kind) : validate k [] = Except.ok () := by
  cases k <;> rfl

/-- The dispatcher agrees with `addFragment` at the rendered fragment text. -/
theorem add_eq_addFragment (h : Heap) (r : Nat) (k : Kind) (v : String) :
    add h r k v = addFragment h r k (fragText k v) := by
  cases k <;> rfl

/-- Full description of a successful fragment addition: the result is a fresh
object carrying the extended state, the receiver is reset to the empty state,
and every other object is untouched. -/
theorem addFragment_spec (h : Heap) (r : Nat) (k : Kind) (text : String)
    (hr : r < h.objs.length)
    (hval : validate k (h.get r).order = Except.ok ()) :
    ∃ h', addFragment h r k text = Except.ok (h', h.objs.length) ∧
      h'.objs.length = h.objs.length + 1 ∧
      h'.get h.objs.length =
        { line := (h.get r).line ++ text, order := (h.get r).order ++ [k] } ∧
      h'.get r = emptyObj ∧
      (∀ x, x ≠ r → x ≠ h.objs.length → h'.get x = h.get x) := by
  unfold addFragment
  rw [hval]
  set o1 : BObj := { line := (h.get r).line ++ text, order := (h.get r).order ++ [k] }
    with ho1
  set h1 := h.set r o1 with hh1
  have hlen1 : h1.objs.length = h.objs.length := Heap.length_set h r o1
  have hget1 : h1.get r = o1 := Heap.get_set_self h r o1 hr
  set h2 := (h1.alloc (h1.get r)).1 with hh2
  have hobj : (h1.alloc (h1.get r)).2 = h.objs.length := by
    simp [Heap.alloc, hlen1]
  have hlen2 : h2.objs.length = h.objs.length + 1 := by
    rw [hh2, Heap.length_alloc, hlen1]
  have hget2new : h2.get h.objs.length = o1 := by
    rw [hh2, ← hlen1, Heap.get_alloc_new, hget1]
  set h3 := h2.set r emptyObj with hh3
  refine ⟨h3, ?_, ?_, ?_, ?_, ?_⟩
  · simp only [hobj]
  · rw [hh3, Heap.length_set, hlen2]
  · have hne : h.objs.length ≠ r := by omega
    rw [hh3, Heap.get_set_ne h2 r h.objs.length emptyObj hne, hget2new]
  · have hlt : r < h2.objs.length := by omega
    exact Heap.get_set_self h2 r emptyObj hlt
  · intro x hxr hxnew
    have hx1 : x ≠ h1.objs.length := by omega
    rw [hh3, Heap.get_set_ne h2 r x emptyObj hxr, hh2,
      Heap.get_alloc_ne h1 (h1.get r) x hx1, hh1,
      Heap.get_set_ne h r x o1 hxr]

/-! ## Combine lemmas -/

/-- The string an argument coerces to is its text in the pre-call heap. -/
theorem coerceString_text (h : Heap) (a : Arg) : (coerceString h a).2 = argText h a := by
  cases a <;> rfl

theorem coerceString_length (h : Heap) (a : Arg) :
    (coerceString h a).1.objs.length = h.objs.length := by
  cases a with
  | obj r => exact Heap.length_set h r emptyObj
  | str s => rfl

theorem coerceString_frame (h : Heap) (a : Arg) (x : Nat)
    (hx : ∀ r, a = Arg.obj r → x ≠ r) :
    (coerceString h a).1.get x = h.get x := by
  cases a with
  | obj r => exact Heap.get_set_ne h r x emptyObj (hx r rfl)
  | str s => rfl

/-- Argument texts only depend on the objects the arguments reference. -/
theorem argText_congr (h h' : Heap) (args : List Arg)
    (hfr : ∀ x, x ∈ objRefs args → h'.get x = h.get x) :
    args.map (argText h') = args.map (argText h) := by
  induction args with
  | nil => rfl
  | cons a rest ih =>
      cases a with
      | obj r =>
          have h1 : h'.get r = h.get r := hfr r (by simp [objRefs])
          have h2 : ∀ x, x ∈ objRefs rest → h'.get x = h.get x := fun x hx =>
            hfr x (by simp [objRefs, hx])
          simp [argText, h1, ih h2]
      | str s =>
          have h2 : ∀ x, x ∈ objRefs rest → h'.get x = h.get x := fun x hx =>
            hfr x (by simp [objRefs, hx])
          simp [argText, ih h2]

/-- The `combine` loop, when no object appears twice among the arguments,
produces the space-join of the arguments' pre-call texts; it does not change
the heap size and touches only the referenced objects. -/
theorem combineLoop_spec (args : List Arg) (h : Heap)
    (hnd : (objRefs args).Nodup) :
    (combineLoop h args).2 = joinSpace (args.map (argText h)) ∧
    (combineLoop h args).1.objs.length = h.objs.length ∧
    ∀ x, x ∉ objRefs args → (combineLoop h args).1.get x = h.get x := by
  induction args generalizing h with
  | nil => exact ⟨rfl, rfl, fun x _ => rfl⟩
  | cons a rest ih =>
      cases rest with
      | nil =>
          refine ⟨?_, coerceString_length h a, ?_⟩
          · simpa [combineLoop, joinSpace] using coerceString_text h a
          · intro x hx
            refine coerceString_frame h a x ?_
            rintro r rfl
            simp [objRefs] at hx
            exact hx
      | cons b rest2 =>
          have hndr : (objRefs (b :: rest2)).Nodup ∧
              ∀ r, a = Arg.obj r → r ∉ objRefs (b :: rest2) := by
            cases a with
            | obj r =>
                simp [objRefs] at hnd
                exact ⟨hnd.2, fun r' hr' => by
                  cases hr'
                  exact hnd.1⟩
            | str s =>
                simp [objRefs] at hnd
                exact ⟨hnd, fun r' hr' => by cases hr'⟩
          obtain ⟨ih2, ihframe⟩ := hndr
          have hfr1 : ∀ x, x ∈ objRefs (b :: rest2) →
              (coerceString h a).1.get x = h.get x := by
            intro x hx
            refine coerceString_frame h a x ?_
            rintro r rfl
            intro hxr
            exact (ihframe r rfl) (hxr ▸ hx)
          obtain ⟨htxt, hlen, hframe⟩ := ih (coerceString h a).1 ih2
          refine ⟨?_, ?_, ?_⟩
          · show (coerceString h a).2 ++ " " ++ (combineLoop (coerceString h a).1 (b :: rest2)).2
                = joinSpace ((a :: b :: rest2).map (argText h))
            rw [coerceString_text, htxt, argText_congr _ _ _ hfr1]
            rfl
          · show (combineLoop (coerceString h a).1 (b :: rest2)).1.objs.length
                = h.objs.length
            rw [hlen, coerceString_length]
          · intro x hx
            have hxa : ∀ r, a = Arg.obj r → x ≠ r := by
              rintro r rfl
              intro hxr
              apply hx
              simp [objRefs, hxr]
            have hxrest : x ∉ objRefs (b :: rest2) := by
              intro hmem
              apply hx
              cases a <;> simp [objRefs, hmem]
            show (combineLoop (coerceString h a).1 (b :: rest2)).1.get x = h.get x
            rw [hframe x hxrest, coerceString_frame h a x hxa]

/-- Rendering the result of `combine` (invoked on a live receiver, with no
object repeated among the arguments) yields the arguments' pre-call texts
joined with single spaces. -/
theorem combine_render (h : Heap) (r : Nat) (args : List Arg)
    (hnd : (objRefs args).Nodup) (hr : r < h.objs.length) :
    (stringify (combine h r args).1 (combine h r args).2).2
      = joinSpace (args.map (argText h)) := by
  obtain ⟨htxt, hlen, _⟩ := combineLoop_spec args h hnd
  show ((combine h r args).1.get (combine h r args).2).line
      = joinSpace (args.map (argText h))
  show (((combineLoop h args).1.set r _).get r).line = _
  rw [Heap.get_set_self _ r _ (by rw [hlen]; exact hr)]
  exact htxt

/-! ## Chaining lemmas -/

/-- Chaining fragment additions whose kinds strictly increase in rank, from a
state whose recorded kinds all rank below every kind to be added, succeeds
and accumulates each fragment's rendered text and kind in call order. -/
theorem chainAdds_spec (ps : List (Kind × String)) (h : Heap) (r : Nat)
    (hr : r < h.objs.length)
    (hps : List.Pairwise (fun a b => rank a.1 < rank b.1) ps)
    (hlt : ∀ u ∈ (h.get r).order, ∀ q ∈ ps, rank u < rank q.1) :
    ∃ h' r', chainAdds h r ps = Except.ok (h', r') ∧ r' < h'.objs.length ∧
      (h'.get r').line = (h.get r).line ++ concatFrags ps ∧
      (h'.get r').order = (h.get r).order ++ ps.map Prod.fst := by
  induction ps generalizing h r with
  | nil =>
      exact ⟨h, r, rfl, hr, by simp [concatFrags], by simp⟩
  | cons q rest ih =>
      have hval : validate q.1 (h.get r).order = Except.ok () :=
        validate_ok_of_ranks_lt q.1 (h.get r).order
          (fun u hu => hlt u hu q (by simp))
      obtain ⟨h1, heq, hlen1, hnew, _, _⟩ :=
        addFragment_spec h r q.1 (fragText q.1 q.2) hr hval
      have hr1 : h.objs.length < h1.objs.length := by omega
      have hps1 : List.Pairwise (fun a b => rank a.1 < rank b.1) rest :=
        hps.sublist (List.sublist_cons_self q rest)
      have hlt1 : ∀ u ∈ (h1.get h.objs.length).order, ∀ p ∈ rest,
          rank u < rank p.1 := by
        rw [hnew]
        intro u hu p hp
        rcases List.mem_append.mp hu with hu | hu
        · exact hlt u hu p (by simp [hp])
        · have hq : u = q.1 := by simpa using hu
          subst hq
          exact (List.pairwise_cons.mp hps).1 p hp
      obtain ⟨h', r', hchain, hr', hline, horder⟩ :=
        ih h1 h.objs.length hr1 hps1 hlt1
      refine ⟨h', r', ?_, hr', ?_, ?_⟩
      · show chainAdds h r (q :: rest) = Except.ok (h', r')
        unfold chainAdds
        rw [add_eq_addFragment, heq]
        exact hchain
      · rw [hline, hnew]
        show (h.get r).line ++ fragText q.1 q.2 ++ concatFrags rest
            = (h.get r).line ++ concatFrags (q :: rest)
        rw [String.append_assoc]
        rfl
      · rw [horder, hnew]
        show (h.get r).order ++ [q.1] ++ rest.map Prod.fst
            = (h.get r).order ++ (q :: rest).map Prod.fst
        rw [List.append_assoc]
        rfl

end cssSelectorBuilder

/-! ## Claims -/

open cssSelectorBuilder

/-- C1 counterexample: a successful fragment-add call does not, in general,
leave the invoked-on state unchanged.  `id` invoked on the state built by
`element('a')` succeeds, yet wipes that state's accumulated text `"a"` and
kind history `[element]` down to the empty state. -/
theorem C1_counterexample :
    element initHeap baseRef "a"
        = Except.ok (Heap.mk [emptyObj, BObj.mk "a" [Kind.element]], 1) ∧
    id (Heap.mk [emptyObj, BObj.mk "a" [Kind.element]]) 1 "b"
        = Except.ok
            (Heap.mk [emptyObj, emptyObj, BObj.mk "a#b" [Kind.element, Kind.id]], 2) ∧
    (Heap.mk [emptyObj, emptyObj,
        BObj.mk "a#b" [Kind.element, Kind.id]]).get 1
      ≠ (Heap.mk [emptyObj, BObj.mk "a" [Kind.element]]).get 1 := by
  refine ⟨?_, ?_, ?_⟩ <;> decide

/-- C1 amended: a successful fragment-add call transfers the accumulated
state to the returned fresh object — that object's text is the receiver's
previous text extended with the new fragment's rendered form, and its kind
history is the receiver's previous history with the new kind appended — and
resets the invoked-on state to the empty builder state (text `''`, kind
history `[]`); hence the invoked-on state is left unchanged exactly when it
was already empty — in particular the shared base builder, which every
fragment-add call leaves empty, is never corrupted by the fragment-add
operations. -/
theorem C1_amended (h : Heap) (r : Nat) (k : Kind) (v : String)
    (h' : Heap) (obj : Nat) (hr : r < h.objs.length)
    (hok : add h r k v = Except.ok (h', obj)) :
    h'.get obj
        = BObj.mk ((h.get r).line ++ fragText k v) ((h.get r).order ++ [k]) ∧
    h'.get r = emptyObj ∧
    (h.get r = emptyObj → h'.get r = h.get r) := by
  rw [add_eq_addFragment] at hok
  cases hv : validate k (h.get r).order with
  | error e =>
      exfalso
      unfold addFragment at hok
      rw [hv] at hok
      exact Except.noConfusion hok
  | ok u =>
      have hval : validate k (h.get r).order = Except.ok () := by rw [hv]
      obtain ⟨h2, heq, _, hnew, hreset, _⟩ :=
        addFragment_spec h r k (fragText k v) hr hval
      rw [heq] at hok
      injection hok with hh
      have hh2 : h2 = h' := congrArg Prod.fst hh
      have hobj : h.objs.length = obj := congrArg Prod.snd hh
      subst hh2
      subst hobj
      exact ⟨hnew, hreset, fun he => by rw [hreset, he]⟩

/-- C1 amended, witness at a concrete input. -/
theorem C1_amended_witness :
    (Heap.mk [emptyObj, BObj.mk "a" [Kind.element]]).get 1
        = BObj.mk ((initHeap.get 0).line ++ fragText Kind.element "a")
            ((initHeap.get 0).order ++ [Kind.element]) ∧
    (Heap.mk [emptyObj, BObj.mk "a" [Kind.element]]).get 0 = emptyObj ∧
    (initHeap.get 0 = emptyObj →
      (Heap.mk [emptyObj, BObj.mk "a" [Kind.element]]).get 0 = initHeap.get 0) :=
  C1_amended initHeap 0 Kind.element "a"
    (Heap.mk [emptyObj, BObj.mk "a" [Kind.element]]) 1 (by decide) (by decide)

/-- C4: the source's `validate` behaves exactly as the spec's two-rule
reference validator (duplicate check for the three singular kinds first,
then the maximum-canonical-rank order check), for every kind and every
history list; and every add call fails with exactly the error `validate`
reports on the receiver's history. -/
theorem C4_validate_two_rule :
    (∀ (k : Kind) (used : List Kind), validate k used = validateSpec k used) ∧
    (∀ (h : Heap) (r : Nat) (k : Kind) (v : String) (e : String),
        add h r k v = Except.error e ↔
        validate k ((h.get r).order) = Except.error e) := by
  constructor
  · exact validate_eq_validateSpec
  · intro h r k v e
    rw [add_eq_addFragment]
    unfold addFragment
    cases hv : validate k (h.get r).order with
    | error e2 => simp
    | ok u => simp

/-- C5 counterexample: adding `element` twice does raise the duplicate
error, but its message is the source's `"more then one time"`, not the
claimed `"more than one time"`. -/
theorem C5_counterexample :
    chainAdds initHeap baseRef [(Kind.element, "a"), (Kind.element, "b")]
      = Except.error
          "Element, id and pseudo-element should not occur more then one time inside the selector" ∧
    "Element, id and pseudo-element should not occur more then one time inside the selector"
      ≠ "Element, id and pseudo-element should not occur more than one time inside the selector" := by
  exact ⟨by decide, by decide⟩

/-- C5 amended: adding element, id, or pseudo-element a second time to the
same chain raises an error carrying exactly the message
`Element, id and pseudo-element should not occur more then one time inside
the selector` (sic, as the source spells it). -/
theorem C5_amended (h : Heap) (r : Nat) (k : Kind) (v : String)
    (hsing : singularKind k = true) (hmem : k ∈ (h.get r).order) :
    add h r k v = Except.error
      "Element, id and pseudo-element should not occur more then one time inside the selector" := by
  rw [add_eq_addFragment]
  unfold addFragment
  have hval : validate k (h.get r).order = Except.error dupMsg := by
    rw [validate_eq_validateSpec]
    unfold validateSpec
    rw [if_pos]
    simp [hsing, contains_iff_mem, hmem]
  rw [hval]
  rfl

/-- C5 amended, witness at a concrete input. -/
theorem C5_amended_witness :
    add (Heap.mk [BObj.mk "a" [Kind.element]]) 0 Kind.element "b"
      = Except.error
          "Element, id and pseudo-element should not occur more then one time inside the selector" :=
  C5_amended (Heap.mk [BObj.mk "a" [Kind.element]]) 0 Kind.element "b"
    (by decide) (by decide)

/-- C6: adding `id` after `class` raises the order-violation error, and
adding `attribute` after `pseudo-class` raises it too, in both cases with
exactly the message the claim quotes. -/
theorem C6_order_errors (v1 v2 v3 v4 : String) :
    chainAdds initHeap baseRef [(Kind.cls, v1), (Kind.id, v2)]
      = Except.error
          "Selector parts should be arranged in the following order: element, id, class, attribute, pseudo-class, pseudo-element" ∧
    chainAdds initHeap baseRef [(Kind.pseudoClass, v3), (Kind.attr, v4)]
      = Except.error
          "Selector parts should be arranged in the following order: element, id, class, attribute, pseudo-class, pseudo-element" := by
  constructor <;> rfl

/-- C2: for every sequence of distinct fragment kinds listed consistently
with the canonical order (pairwise strictly increasing rank) and arbitrary
values, chaining the corresponding add operations from the base builder
raises no error, and rendering the result returns the concatenation, in
call order, of each fragment's rendered form. -/
theorem C2_canonical_chain (ps : List (Kind × String))
    (hps : List.Pairwise (fun a b => rank a.1 < rank b.1) ps) :
    ∃ h' r', chainAdds initHeap baseRef ps = Except.ok (h', r') ∧
      (stringify h' r').2 = concatFrags ps := by
  obtain ⟨h', r', hchain, _, hline, _⟩ :=
    chainAdds_spec ps initHeap baseRef (by decide) hps
      (fun u hu => absurd hu (by simp [initHeap, Heap.get, baseRef, emptyObj]))
  refine ⟨h', r', hchain, ?_⟩
  show (h'.get r').line = concatFrags ps
  rw [hline]
  rfl

/-- C2 witness: the spec's own example chain. -/
theorem C2_canonical_chain_witness :
    ∃ h' r', chainAdds initHeap baseRef
        [(Kind.element, "a"), (Kind.attr, "href$=png"), (Kind.pseudoClass, "focus")]
        = Except.ok (h', r') ∧
      (stringify h' r').2 = concatFrags
        [(Kind.element, "a"), (Kind.attr, "href$=png"), (Kind.pseudoClass, "focus")] :=
  C2_canonical_chain _ (by decide)

/-- C3 counterexample: combining two combine-results, as in
`combine(combine(a, t1, b), '~', combine(c, t2, d))` on the shared base
builder, does not render as
`render(a) + ' ' + t1 + ' ' + render(b) + ' ~ ' + render(c) + ' ' + t2 + ' ' + render(d)`:
with a = element 'a', b = element 'b', c = element 'c', d = element 'd',
t1 = '+', t2 = '>', the code renders `"c > d ~ "` instead of
`"a + b ~ c > d"`. -/
theorem C3_counterexample :
    nestedCombineRun "a" "+" "b" "c" ">" "d" = Except.ok "c > d ~ " ∧
    "c > d ~ " ≠ "a + b ~ c > d" := by
  exact ⟨by decide, by decide⟩

/-- C3 amended: in `combine(combine(a, t1, b), '~', combine(c, t2, d))` all
three combine calls run on (and return) the one shared base builder, so the
second inner combine overwrites the first's text, and the destructive string
coercion of the outer call clears the base after reading it once: the result
renders as `render(c) + ' ' + t2 + ' ' + render(d) + ' ' + '~' + ' '`, the
texts of a, t1 and b being lost and the trailing operand reading as empty. -/
theorem C3_amended (va t1 vb vc t2 vd : String) :
    nestedCombineRun va t1 vb vc t2 vd
      = Except.ok (vc ++ " " ++ t2 ++ " " ++ vd ++ " " ++ "~" ++ " ") := by
  simp [nestedCombineRun, element, addFragment, validate, dupCheck, orderCheck,
    combine, combineLoop, coerceString, cssSelectorBuilder.toString, stringify,
    Heap.get, Heap.set, Heap.alloc, initHeap, baseRef, emptyObj,
    String.append_assoc]

/-- C7: `combine(a, tok, b)` on two distinct states renders as
`render(a) + ' ' + tok + ' ' + render(b)` for an arbitrary token inserted
verbatim; and variadically, with no operand repeated, `combine` renders as
all arguments joined in call order with exactly one space between every
adjacent pair (operands and tokens alike). -/
theorem C7_combine_join :
    (∀ (h : Heap) (r ra rb : Nat) (tok : String),
        ra ≠ rb → r < h.objs.length →
        (stringify (combine h r [Arg.obj ra, Arg.str tok, Arg.obj rb]).1
            (combine h r [Arg.obj ra, Arg.str tok, Arg.obj rb]).2).2
          = (h.get ra).line ++ " " ++ tok ++ " " ++ (h.get rb).line) ∧
    (∀ (h : Heap) (r : Nat) (args : List Arg),
        (objRefs args).Nodup → r < h.objs.length →
        (stringify (combine h r args).1 (combine h r args).2).2
          = joinSpace (args.map (argText h))) := by
  constructor
  · intro h r ra rb tok hne hr
    have hj := combine_render h r [Arg.obj ra, Arg.str tok, Arg.obj rb]
      (by simp [objRefs, hne]) hr
    rw [hj]
    show (h.get ra).line ++ " " ++ (tok ++ " " ++ (h.get rb).line) = _
    simp [String.append_assoc]
  · intro h r args hnd hr
    exact combine_render h r args hnd hr

/-- C7 witness: `combine(element('div'), '+', element('table'))` renders as
`"div + table"`, and a four-argument variadic call joins with single
spaces. -/
theorem C7_combine_join_witness :
    ((stringify
        (combine (Heap.mk [emptyObj, BObj.mk "div" [Kind.element],
            BObj.mk "table" [Kind.element]]) 0
          [Arg.obj 1, Arg.str "+", Arg.obj 2]).1
        (combine (Heap.mk [emptyObj, BObj.mk "div" [Kind.element],
            BObj.mk "table" [Kind.element]]) 0
          [Arg.obj 1, Arg.str "+", Arg.obj 2]).2).2
      = ((Heap.mk [emptyObj, BObj.mk "div" [Kind.element],
            BObj.mk "table" [Kind.element]]).get 1).line ++ " " ++ "+" ++ " "
          ++ ((Heap.mk [emptyObj, BObj.mk "div" [Kind.element],
            BObj.mk "table" [Kind.element]]).get 2).line) ∧
    ((stringify
        (combine (Heap.mk [emptyObj, BObj.mk "a" [Kind.element],
            BObj.mk "b" [Kind.element]]) 0
          [Arg.obj 1, Arg.str ">", Arg.obj 2, Arg.str "~", Arg.str "x"]).1
        (combine (Heap.mk [emptyObj, BObj.mk "a" [Kind.element],
            BObj.mk "b" [Kind.element]]) 0
          [Arg.obj 1, Arg.str ">", Arg.obj 2, Arg.str "~", Arg.str "x"]).2).2
      = joinSpace ([Arg.obj 1, Arg.str ">", Arg.obj 2, Arg.str "~", Arg.str "x"].map
          (argText (Heap.mk [emptyObj, BObj.mk "a" [Kind.element],
            BObj.mk "b" [Kind.element]])))) :=
  ⟨C7_combine_join.1 (Heap.mk [emptyObj, BObj.mk "div" [Kind.element],
      BObj.mk "table" [Kind.element]]) 0 1 2 "+" (by decide) (by decide),
   C7_combine_join.2 (Heap.mk [emptyObj, BObj.mk "a" [Kind.element],
      BObj.mk "b" [Kind.element]]) 0
    [Arg.obj 1, Arg.str ">", Arg.obj 2, Arg.str "~", Arg.str "x"]
    (by decide) (by decide)⟩

/-- C8: `stringify()` and its alias `toString()` return the accumulated
selector text and clear the instance's text and kind tracking, so rendering
is destructive: an immediate second call on the same instance returns the
empty string. -/
theorem C8_render_destructive (h : Heap) (r : Nat) (hr : r < h.objs.length) :
    (stringify h r).2 = (h.get r).line ∧
    (cssSelectorBuilder.toString h r).2 = (h.get r).line ∧
    (stringify h r).1.get r = emptyObj ∧
    (stringify ((stringify h r).1) r).2 = "" ∧
    (cssSelectorBuilder.toString ((cssSelectorBuilder.toString h r).1) r).2 = "" := by
  have hreset : (stringify h r).1.get r = emptyObj :=
    Heap.get_set_self h r emptyObj hr
  refine ⟨rfl, rfl, hreset, ?_, ?_⟩
  · show ((stringify h r).1.get r).line = ""
    rw [hreset]
    rfl
  · show (((cssSelectorBuilder.toString h r).1).get r).line = ""
    rw [show ((cssSelectorBuilder.toString h r).1).get r = emptyObj from
      Heap.get_set_self h r emptyObj hr]
    rfl

/-- C8 witness at a concrete instance holding the text `"a"`. -/
theorem C8_render_destructive_witness :
    (stringify (Heap.mk [BObj.mk "a" [Kind.element]]) 0).2
        = ((Heap.mk [BObj.mk "a" [Kind.element]]).get 0).line ∧
    (cssSelectorBuilder.toString (Heap.mk [BObj.mk "a" [Kind.element]]) 0).2
        = ((Heap.mk [BObj.mk "a" [Kind.element]]).get 0).line ∧
    (stringify (Heap.mk [BObj.mk "a" [Kind.element]]) 0).1.get 0 = emptyObj ∧
    (stringify ((stringify (Heap.mk [BObj.mk "a" [Kind.element]]) 0).1) 0).2 = "" ∧
    (cssSelectorBuilder.toString
        ((cssSelectorBuilder.toString (Heap.mk [BObj.mk "a" [Kind.element]]) 0).1) 0).2
      = "" :=
  C8_render_destructive (Heap.mk [BObj.mk "a" [Kind.element]]) 0 (by decide)

/-- C10: after `stringify()` (or `toString()`) the instance is reset to the
empty-builder state, so any subsequent fragment-add call on it validates
against an empty history — it succeeds for every kind — and builds a fresh
selector from scratch: the returned object holds exactly that fragment's
rendered text and a one-entry kind history. -/
theorem C10_post_render_reset (h : Heap) (r : Nat) (hr : r < h.objs.length) :
    (stringify h r).1.get r = emptyObj ∧
    (cssSelectorBuilder.toString h r).1.get r = emptyObj ∧
    ∀ (k : Kind) (v : String), ∃ h' obj,
      add (stringify h r).1 r k v = Except.ok (h', obj) ∧
      h'.get obj = BObj.mk (fragText k v) [k] := by
  have hreset : (stringify h r).1.get r = emptyObj :=
    Heap.get_set_self h r emptyObj hr
  refine ⟨hreset, Heap.get_set_self h r emptyObj hr, ?_⟩
  intro k v
  have hr1 : r < (stringify h r).1.objs.length := by
    show r < (h.set r emptyObj).objs.length
    rw [Heap.length_set]
    exact hr
  have hval : validate k ((stringify h r).1.get r).order = Except.ok () := by
    rw [hreset]
    exact validate_ok_nil k
  obtain ⟨h', heq, _, hnew, _, _⟩ :=
    addFragment_spec (stringify h r).1 r k (fragText k v) hr1 hval
  refine ⟨h', (stringify h r).1.objs.length, ?_, ?_⟩
  · rw [add_eq_addFragment]
    exact heq
  · rw [hnew, hreset]
    show BObj.mk (emptyObj.line ++ fragText k v) (emptyObj.order ++ [k]) = _
    simp [emptyObj]

/-- C10 witness: render an instance holding `"a"`, then add a class. -/
theorem C10_post_render_reset_witness :
    ∃ h' obj,
      add (stringify (Heap.mk [BObj.mk "a" [Kind.element]]) 0).1 0 Kind.cls "x"
        = Except.ok (h', obj) ∧
      h'.get obj = BObj.mk (fragText Kind.cls "x") [Kind.cls] :=
  (C10_post_render_reset (Heap.mk [BObj.mk "a" [Kind.element]]) 0 (by decide)).2.2
    Kind.cls "x"

/-- Copying the keys of a parsed mapping one by one into an accumulator by
JS assignment appends them all, provided the mapping's keys are distinct and
none is already present. -/
theorem foldl_setField_append (o : PlainObj) (acc : PlainObj)
    (hnd : (o.map Prod.fst).Nodup)
    (hdisj : ∀ p ∈ o, ∀ q ∈ acc, q.1 ≠ p.1) :
    o.foldl (fun a p => setField a p.1 p.2) acc = acc ++ o := by
  induction o generalizing acc with
  | nil => simp
  | cons p rest ih =>
      rw [List.map_cons, List.nodup_cons] at hnd
      have hany : acc.any (fun q => q.1 == p.1) = false := by
        rw [List.any_eq_false]
        intro q hq
        simpa using hdisj p (by simp) q hq
      have hset : setField acc p.1 p.2 = acc ++ [p] := by
        unfold setField
        rw [if_neg (by simp [hany])]
      have hdisj1 : ∀ p2 ∈ rest, ∀ q ∈ acc ++ [p], q.1 ≠ p2.1 := by
        intro p2 hp2 q hq
        rcases List.mem_append.mp hq with hq | hq
        · exact hdisj p2 (by simp [hp2]) q hq
        · have hqp : q = p := by simpa using hq
          subst hqp
          intro hcontra
          refine hnd.1 ?_
          rw [hcontra]
          exact List.mem_map_of_mem Prod.fst hp2
      show List.foldl (fun a p => setField a p.1 p.2) (setField acc p.1 p.2) rest
          = acc ++ p :: rest
      rw [hset, ih (acc ++ [p]) hnd.2 hdisj1, List.append_assoc]
      rfl

/-- C9: for every JSON-representable plain object (distinct keys) and every
prototype descriptor, `fromJSON(P, getJSON(o))` yields an object whose own
enumerable keys and values equal `o`'s, and whose prototype is exactly
`P`. -/
theorem C9_roundtrip {π : Type} (P : π) (o : PlainObj)
    (hnd : (o.map Prod.fst).Nodup) :
    (fromJSON P (getJSON o)).fields = o ∧ (fromJSON P (getJSON o)).proto = P := by
  constructor
  · show o.foldl (fun a p => setField a p.1 p.2) [] = o
    rw [foldl_setField_append o [] hnd (by simp)]
    rfl
  · rfl

/-- C9 witness: a two-key object round-trips through `getJSON`/`fromJSON`
with an arbitrary prototype token. -/
theorem C9_roundtrip_witness :
    (fromJSON 42
        (getJSON [("width", JsonPrim.num 10), ("height", JsonPrim.num 20)])).fields
      = [("width", JsonPrim.num 10), ("height", JsonPrim.num 20)] ∧
    (fromJSON 42
        (getJSON [("width", JsonPrim.num 10), ("height", JsonPrim.num 20)])).proto
      = 42 :=
  C9_roundtrip 42 [("width", JsonPrim.num 10), ("height", JsonPrim.num 20)]
    (by decide)

end ObjectsTasks
